import Mathlib

/- Shallow embedding of the TraceViz Go server core: the tagged Value type
and its JSON wire encoding, the interning string table, the Datum tree and
its builder combinators (server/go/util/util.go), and the query dispatcher
(package querydispatcher).  Modelling conventions:

* Go `int64` is modelled as `Int` (no arithmetic in the core overflows:
  indices are list lengths, tags are 0..9; Go's truncated `%` is `Int.tmod`,
  and the floor division underlying `time.Time.Unix` is `Int.fdiv`).
* `time.Time` is modelled as the `Int` count of nanoseconds since the Unix
  epoch (exact within the range where Go's `UnixNano` is defined).
* `float64` is modelled as an opaque bit pattern (`Nat`); Go's JSON encoding
  of a finite float64 round-trips exactly (shortest-representation printing),
  so the wire carries the pattern through unchanged.  Non-finite doubles,
  which `json.Marshal` rejects, are outside the model.
* JSON is modelled at the level of its value tree `J`; serializing that tree
  to bytes and re-parsing it with `UseNumber` is the identity on the tree, so
  encode/decode laws are stated on `J`.
* Go maps are modelled as association lists whose update replaces the
  existing entry in place; Go's lock-protected double-checked accesses
  collapse to plain accesses in this sequential model.
* Go strings are treated as their character sequences; `url.QueryUnescape`
  is modelled character-wise, which agrees with the byte-wise original on
  ASCII data (multi-byte percent escapes are not needed by any claim).
* A Go function value returning `error` is modelled as returning
  `Option String` (`none` = nil error); fallible operations return
  `Except String`.  A Go runtime panic from a failed type assertion or an
  out-of-range index is modelled as a distinguished error value; no claim
  exercises those branches.
-/

namespace Traceviz

/- JSON value trees, as produced by encoding/json with UseNumber: a
json.Number is kept unparsed, so integers pass through without a floating
point intermediate.  `jint` is a number token holding a 64-bit integer;
`jfloat` is a number token printed from a float64 (carried as its bit
pattern). -/

inductive JNum where
  | jint (i : Int)
  | jfloat (bits : Nat)
  deriving DecidableEq, Repr

inductive J where
  | num (n : JNum)
  | str (s : String)
  | arr (xs : List J)
  | null

mutual

def jDecEq : (a b : J) → Decidable (a = b)
  | .num x, .num y =>
    match decEq x y with
    | .isTrue h => .isTrue (congrArg J.num h)
    | .isFalse h => .isFalse (fun hh => h (J.num.inj hh))
  | .str x, .str y =>
    match decEq x y with
    | .isTrue h => .isTrue (congrArg J.str h)
    | .isFalse h => .isFalse (fun hh => h (J.str.inj hh))
  | .arr xs, .arr ys =>
    match jListDecEq xs ys with
    | .isTrue h => .isTrue (congrArg J.arr h)
    | .isFalse h => .isFalse (fun hh => h (J.arr.inj hh))
  | .null, .null => .isTrue rfl
  | .num _, .str _ => .isFalse (fun h => J.noConfusion h)
  | .num _, .arr _ => .isFalse (fun h => J.noConfusion h)
  | .num _, .null => .isFalse (fun h => J.noConfusion h)
  | .str _, .num _ => .isFalse (fun h => J.noConfusion h)
  | .str _, .arr _ => .isFalse (fun h => J.noConfusion h)
  | .str _, .null => .isFalse (fun h => J.noConfusion h)
  | .arr _, .num _ => .isFalse (fun h => J.noConfusion h)
  | .arr _, .str _ => .isFalse (fun h => J.noConfusion h)
  | .arr _, .null => .isFalse (fun h => J.noConfusion h)
  | .null, .num _ => .isFalse (fun h => J.noConfusion h)
  | .null, .str _ => .isFalse (fun h => J.noConfusion h)
  | .null, .arr _ => .isFalse (fun h => J.noConfusion h)

def jListDecEq : (a b : List J) → Decidable (a = b)
  | [], [] => .isTrue rfl
  | [], _ :: _ => .isFalse (fun h => List.noConfusion h)
  | _ :: _, [] => .isFalse (fun h => List.noConfusion h)
  | x :: xs, y :: ys =>
    match jDecEq x y, jListDecEq xs ys with
    | .isTrue h1, .isTrue h2 => .isTrue (by rw [h1, h2])
    | .isFalse h1, _ => .isFalse (fun hh => h1 (List.cons.inj hh).1)
    | _, .isFalse h2 => .isFalse (fun hh => h2 (List.cons.inj hh).2)

end

instance : DecidableEq J := jDecEq

/- The dynamic (`any`) payload of a V: one constructor per Go dynamic type
stored in the `V.V` field.  `praw` holds a raw decoded JSON value, as stored
by the default branch of `V.fromAny` for tags it does not special-case. -/
inductive Payload where
  | pnil
  | pstring (s : String)
  | pint64 (i : Int)
  | pstrings (ss : List String)
  | pint64s (xs : List Int)
  | pfloat64 (bits : Nat)
  | pduration (ns : Int)
  | ptimestamp (unixSeconds unixNanos : Int)
  | praw (j : J)
  deriving DecidableEq

/- Enumerated value types (util.go).  Go's valueType is an int; the
constants are `Int` values so a V's tag field can hold any integer, as in
the source. -/

def unsetValue : Int := 0
def StringValueType : Int := 1
def StringIndexValueType : Int := 2
def StringsValueType : Int := 3
def StringIndicesValueType : Int := 4
def IntegerValueType : Int := 5
def IntegersValueType : Int := 6
def DoubleValueType : Int := 7
def DurationValueType : Int := 8
def TimestampValueType : Int := 9

/- V represents a value in a TraceViz request or response. -/
set_option linter.dupNamespace false in
structure V where
  V : Payload
  T : Int
  deriving DecidableEq

/- Characterwise model of url.QueryUnescape: '+' becomes a space, '%'
followed by two hex digits becomes the escaped character, a malformed '%'
escape is an error, everything else passes through. -/

def unhex (c : Char) : Option Nat :=
  if '0' ≤ c ∧ c ≤ '9' then some (c.toNat - '0'.toNat)
  else if 'a' ≤ c ∧ c ≤ 'f' then some (c.toNat - 'a'.toNat + 10)
  else if 'A' ≤ c ∧ c ≤ 'F' then some (c.toNat - 'A'.toNat + 10)
  else none

def queryUnescapeChars : List Char → Except String (List Char)
  | [] => .ok []
  | '%' :: rest =>
    match rest with
    | a :: b :: rest' =>
      match unhex a, unhex b with
      | some ha, some hb =>
        (queryUnescapeChars rest').map (fun r => Char.ofNat (16 * ha + hb) :: r)
      | _, _ => .error "invalid URL escape"
    | _ => .error "invalid URL escape"
  | '+' :: rest => (queryUnescapeChars rest).map (fun r => ' ' :: r)
  | c :: rest => (queryUnescapeChars rest).map (fun r => c :: r)

def queryUnescape (s : String) : Except String String :=
  (queryUnescapeChars s.toList).map (fun cs => String.mk cs)

/- Time model: an instant is its `Int` nanosecond count from the Unix
epoch.  `timeUnix sec nsec` is Go's time.Unix constructor; `timeUnixSeconds`
is t.Unix() (the floor of the second count, since Go normalizes the
nanosecond field into [0, 1e9)); `timeUnixNano` is t.UnixNano(). -/

def nanosPerSecond : Int := 1000000000

def timeUnix (sec nsec : Int) : Int := sec * nanosPerSecond + nsec

def timeUnixSeconds (t : Int) : Int := Int.fdiv t nanosPerSecond

def timeUnixNano (t : Int) : Int := t

/- Quick builders for Value types (util.go). -/

def StringValue (str : String) : V := { V := .pstring str, T := StringValueType }

def StringIndexValue (strIdx : Int) : V := { V := .pint64 strIdx, T := StringIndexValueType }

def StringsValue (strs : List String) : V := { V := .pstrings strs, T := StringsValueType }

def StringIndicesValue (strIdxs : List Int) : V := { V := .pint64s strIdxs, T := StringIndicesValueType }

def IntegerValue (i : Int) : V := { V := .pint64 i, T := IntegerValueType }

def IntValue : Int → V := IntegerValue

def IntegersValue (ints : List Int) : V := { V := .pint64s ints, T := IntegersValueType }

def IntsValue : List Int → V := IntegersValue

def DoubleValue (f : Nat) : V := { V := .pfloat64 f, T := DoubleValueType }

def DurationValue (dur : Int) : V := { V := .pduration dur, T := DurationValueType }

/- TimestampValue stores t.Unix() and t.UnixNano() % int64(time.Second);
Go's % is the truncated remainder, Int.tmod. -/
def TimestampValue (t : Int) : V :=
  { V := .ptimestamp (timeUnixSeconds t) (Int.tmod (timeUnixNano t) nanosPerSecond),
    T := TimestampValueType }

/- Expect functions (util.go): check the tag, then read the payload via a Go
type assertion (whose panic on a shape the constructors never produce is
modelled as a distinguished error). -/

def ExpectStringValue (val : V) : Except String String :=
  if val.T ≠ StringValueType then .error "expected value type 'str'"
  else match val.V with
    | .pstring s => queryUnescape s
    | _ => .error "panic: interface conversion"

def expectStringIndexValue (val : V) : Except String Int :=
  if val.T ≠ StringIndexValueType then .error "expect value type 'str_idx'"
  else match val.V with
    | .pint64 i => .ok i
    | _ => .error "panic: interface conversion"

def ExpectStringsValue (val : V) : Except String (List String) :=
  if val.T ≠ StringsValueType then .error "expected value type 'strs'"
  else match val.V with
    | .pstrings ss => .ok ss
    | _ => .error "panic: interface conversion"

def expectStringIndicesValue (val : V) : Except String (List Int) :=
  if val.T ≠ StringIndicesValueType then .error "expected value type 'str_idxs'"
  else match val.V with
    | .pint64s xs => .ok xs
    | _ => .error "panic: interface conversion"

def ExpectIntegerValue (val : V) : Except String Int :=
  if val.T ≠ IntegerValueType then .error "expected value type 'int'"
  else match val.V with
    | .pint64 i => .ok i
    | _ => .error "panic: interface conversion"

def ExpectIntegersValue (val : V) : Except String (List Int) :=
  if val.T ≠ IntegersValueType then .error "expected value type 'str_idxs'"
  else match val.V with
    | .pint64s xs => .ok xs
    | _ => .error "panic: interface conversion"

def ExpectDoubleValue (val : V) : Except String Nat :=
  if val.T ≠ DoubleValueType then .error "expected value type 'dbl'"
  else match val.V with
    | .pfloat64 f => .ok f
    | _ => .error "panic: interface conversion"

def ExpectDurationValue (val : V) : Except String Int :=
  if val.T ≠ DurationValueType then .error "expected value type 'duration'"
  else match val.V with
    | .pduration ns => .ok ns
    | _ => .error "panic: interface conversion"

def ExpectTimestampValue (val : V) : Except String Int :=
  if val.T ≠ TimestampValueType then .error "expected value type 'duration'"
  else match val.V with
    | .ptimestamp secs nanos => .ok (timeUnix secs nanos)
    | _ => .error "panic: interface conversion"

/- Wire encoding of V (V.MarshalJSON): the 2-element array [tag, payload].
A time.Duration marshals as its int64 nanosecond count; the timestamp
struct marshals as [seconds, nanos] (timestamp.MarshalJSON). -/

def marshalPayload : Payload → J
  | .pnil => .null
  | .pstring s => .str s
  | .pint64 i => .num (.jint i)
  | .pstrings ss => .arr (ss.map .str)
  | .pint64s xs => .arr (xs.map (fun i => .num (.jint i)))
  | .pfloat64 f => .num (.jfloat f)
  | .pduration ns => .num (.jint ns)
  | .ptimestamp secs nanos => .arr [.num (.jint secs), .num (.jint nanos)]
  | .praw j => j

def marshalV (v : V) : J := .arr [.num (.jint v.T), marshalPayload v.V]

/- json.Number accessors.  Int64 parses the token as an int64, failing on a
float-formatted token; Float64 reads back a float64 token (a float64 printed
by Go re-parses to the identical value).  Float64 applied to an
integer-formatted token succeeds in Go; no encoded Value exercises that
branch and it is left as an error here. -/

def jnumInt64 : JNum → Except String Int
  | .jint i => .ok i
  | .jfloat _ => .error "invalid number syntax"

def jnumFloat64 : JNum → Except String Nat
  | .jfloat f => .ok f
  | .jint _ => .error "integer token as float64 not modelled"

/- Go type assertions on decoded any values; a failing assertion panics. -/

def jAsNumber : J → Except String JNum
  | .num n => .ok n
  | _ => .error "panic: interface conversion to json.Number"

def jAsArr : J → Except String (List J)
  | .arr xs => .ok xs
  | _ => .error "panic: interface conversion to []any"

def jAsString : J → Except String String
  | .str s => .ok s
  | _ => .error "panic: interface conversion to string"

/- The strings loop of V.fromAny: unescape each element, aborting on the
first failure. -/
def decodeStrings : List J → Except String (List String)
  | [] => .ok []
  | x :: xs => do
    let s ← jAsString x
    let u ← queryUnescape s
    let rest ← decodeStrings xs
    .ok (u :: rest)

/- The integers loop of V.fromAny. -/
def decodeInt64s : List J → Except String (List Int)
  | [] => .ok []
  | x :: xs => do
    let n ← jAsNumber x
    let i ← jnumInt64 n
    let rest ← decodeInt64s xs
    .ok (i :: rest)

/- The default branch of V.fromAny stores the raw decoded value: a JSON
string decodes to a Go string, null to nil, anything else stays raw. -/
def payloadOfRaw : J → Payload
  | .str s => .pstring s
  | .null => .pnil
  | j => .praw j

/- V.fromAny: got[0] is the tag, got[1] the payload; the switch on the tag
special-cases the numeric, list and timestamp types and stores everything
else raw.  Indexing a shorter array panics in Go. -/
def vFromAny (got : List J) : Except String V :=
  match got with
  | t :: tv :: _ => do
    let tn ← jAsNumber t
    let tInt ← jnumInt64 tn
    if tInt = StringIndexValueType ∨ tInt = IntegerValueType then
      let n ← jAsNumber tv
      let i ← jnumInt64 n
      .ok { V := .pint64 i, T := tInt }
    else if tInt = StringsValueType then
      let xs ← jAsArr tv
      let strs ← decodeStrings xs
      .ok { V := .pstrings strs, T := tInt }
    else if tInt = DoubleValueType then
      let n ← jAsNumber tv
      let f ← jnumFloat64 n
      .ok { V := .pfloat64 f, T := tInt }
    else if tInt = StringIndicesValueType ∨ tInt = IntegersValueType then
      let xs ← jAsArr tv
      let ints ← decodeInt64s xs
      .ok { V := .pint64s ints, T := tInt }
    else if tInt = DurationValueType then
      let n ← jAsNumber tv
      let durNs ← jnumInt64 n
      .ok { V := .pduration durNs, T := tInt }
    else if tInt = TimestampValueType then
      let parts ← jAsArr tv
      match parts with
      | [p0, p1] => do
        let n0 ← jAsNumber p0
        let unixSecs ← jnumInt64 n0
        let n1 ← jAsNumber p1
        let unixNanos ← jnumInt64 n1
        .ok { V := .ptimestamp unixSecs unixNanos, T := tInt }
      | _ => .error "timestamp Value is improperly formed"
    else
      .ok { V := payloadOfRaw tv, T := tInt }
  | _ => .error "panic: index out of range"

/- V.UnmarshalJSON: decode the JSON into a []any (here: expect an array
node) and run fromAny. -/
def unmarshalV (j : J) : Except String V :=
  match j with
  | .arr got => vFromAny got
  | _ => .error "cannot unmarshal value into []any"

/- Generic association-list lookup, modelling a Go map read. -/
def lookupA {α β : Type} [DecidableEq α] : List (α × β) → α → Option β
  | [], _ => none
  | (k, v) :: rest, s => if k = s then some v else lookupA rest s

/- Go map assignment: replace the entry in place, or append a new one. -/
def setA {α β : Type} [DecidableEq α] : List (α × β) → α → β → List (α × β)
  | [], k, v => [(k, v)]
  | (k', v') :: rest, k, v =>
    if k' = k then (k, v) :: rest else (k', v') :: setA rest k v

/- stringTable (util.go): a map from strings to indices plus the strings in
index order.  The Go type is lock-protected; in this sequential model the
optimistic-read / locked re-check discipline of stringIndex collapses to a
single lookup. -/
structure stringTable where
  stringsToIndices : List (String × Int)
  stringsByIndex : List String
  deriving DecidableEq

def stringTable.lookupStringIndex (st : stringTable) (str : String) : Option Int :=
  lookupA st.stringsToIndices str

/- stringIndex returns the index for the provided string, adding it to the
table if necessary; a fresh string gets index len(stringsByIndex). -/
def stringTable.stringIndex (st : stringTable) (str : String) : Int × stringTable :=
  match st.lookupStringIndex str with
  | some idx => (idx, st)
  | none =>
    let idx : Int := st.stringsByIndex.length
    (idx, { stringsToIndices := st.stringsToIndices ++ [(str, idx)],
            stringsByIndex := st.stringsByIndex ++ [str] })

def emptyStringTable : stringTable :=
  { stringsToIndices := [], stringsByIndex := [] }

/- Intern a list of strings left to right, keeping the final table. -/
def internAll : stringTable → List String → stringTable
  | st, [] => st
  | st, s :: rest => internAll (st.stringIndex s).2 rest

/- newStringTable returns a new table populated with the provided strings. -/
def newStringTable (strs : List String) : stringTable :=
  internAll emptyStringTable strs

/- The shared error sink (util.go `errors`): a sticky flag plus the list of
recorded failures, exclusive-append under its mutex. -/
structure errors where
  hasError : Bool
  errs : List String
  deriving DecidableEq

def errors.add (es : errors) (err : String) : errors :=
  { hasError := true, errs := es.errs ++ [err] }

/- errors.Error(): the recorded failure texts joined with ", " (empty when
none were recorded). -/
def errors.errorString (es : errors) : String :=
  String.intercalate ", " es.errs

/- errors.toError(): nil when nothing was recorded, else the joined text. -/
def errors.toError (es : errors) : Option String :=
  if es.errs = [] then none else some es.errorString

def newErrors : errors := { hasError := false, errs := [] }

/- Datum: a property map (interned key to V) plus ordered children. -/
structure Datum where
  Properties : List (Int × V)
  Children : List Datum

/- The per-tree builder state.  A Go datumBuilder holds pointers to the
response's shared stringTable and error sink and its own Datum; here the
shared part is threaded explicitly and a builder's local property map is a
`Props` association list. -/

abbrev Props := List (Int × V)

structure Shared where
  st : stringTable
  errs : errors
  deriving DecidableEq

/- datumBuilder.withStr: the key is interned first (Go evaluates the index
expression before the right-hand side), then the value. -/
def withStr (sh : Shared) (p : Props) (key value : String) : Shared × Props :=
  let (kIdx, st1) := sh.st.stringIndex key
  let (vIdx, st2) := st1.stringIndex value
  ({ sh with st := st2 }, setA p kIdx (StringIndexValue vIdx))

/- Intern each string of a list in order, returning the indices. -/
def internList (st : stringTable) : List String → List Int × stringTable
  | [] => ([], st)
  | s :: rest =>
    let (i, st1) := st.stringIndex s
    let (is, st2) := internList st1 rest
    (i :: is, st2)

/- datumBuilder.withStrs: the values are interned by the loop before the key
is interned by the assignment. -/
def withStrs (sh : Shared) (p : Props) (key : String) (values : List String) : Shared × Props :=
  let (valIdxs, st1) := internList sh.st values
  let (kIdx, st2) := st1.stringIndex key
  ({ sh with st := st2 }, setA p kIdx (StringIndicesValue valIdxs))

/- datumBuilder.appendStrs: on a fresh key this is withStrs; on an existing
key the stored *V has its payload replaced by the extended index list (its
tag is left as it was), and a type mismatch is recorded in the sink but does
not stop the append. -/
def appendStrs (sh : Shared) (p : Props) (key : String) (values : List String) : Shared × Props :=
  let (kIdx, st1) := sh.st.stringIndex key
  let sh1 : Shared := { sh with st := st1 }
  match lookupA p kIdx with
  | none => withStrs sh1 p key values
  | some val =>
    let (strIdxs, errs1) :=
      match expectStringIndicesValue val with
      | .ok is => (is, sh1.errs)
      | .error e => (([] : List Int), sh1.errs.add e)
    let (newIdxs, st2) := internList st1 values
    ({ st := st2, errs := errs1 }, setA p kIdx { V := .pint64s (strIdxs ++ newIdxs), T := val.T })

def withInt (sh : Shared) (p : Props) (key : String) (value : Int) : Shared × Props :=
  let (kIdx, st1) := sh.st.stringIndex key
  ({ sh with st := st1 }, setA p kIdx (IntValue value))

def withInts (sh : Shared) (p : Props) (key : String) (values : List Int) : Shared × Props :=
  let (kIdx, st1) := sh.st.stringIndex key
  ({ sh with st := st1 }, setA p kIdx (IntsValue values))

def withDbl (sh : Shared) (p : Props) (key : String) (value : Nat) : Shared × Props :=
  let (kIdx, st1) := sh.st.stringIndex key
  ({ sh with st := st1 }, setA p kIdx (DoubleValue value))

def withDuration (sh : Shared) (p : Props) (key : String) (value : Int) : Shared × Props :=
  let (kIdx, st1) := sh.st.stringIndex key
  ({ sh with st := st1 }, setA p kIdx (DurationValue value))

def withTimestamp (sh : Shared) (p : Props) (key : String) (value : Int) : Shared × Props :=
  let (kIdx, st1) := sh.st.stringIndex key
  ({ sh with st := st1 }, setA p kIdx (TimestampValue value))

/- PropertyUpdate, embedded as one constructor per update producer in the
source.  `emptyUpdate` is the nil PropertyUpdate (EmptyUpdate); a nil update
is skipped by With, which coincides with applying a no-op.  Go's If
evaluates its predicate when the combinator is built, returning either the
update or nil, so it is a plain function below; IfElse and Chain return
closures that branch when applied, so they are constructors. -/
inductive PUpdate where
  | emptyUpdate
  | errorProperty (err : String)
  | stringProperty (key value : String)
  | stringsProperty (key : String) (values : List String)
  | stringsPropertyExtended (key : String) (values : List String)
  | integerProperty (key : String) (value : Int)
  | integersProperty (key : String) (values : List Int)
  | doubleProperty (key : String) (value : Nat)
  | durationProperty (key : String) (value : Int)
  | timestampProperty (key : String) (value : Int)
  | chain (updates : List PUpdate)
  | ifElse (predicate : Bool) (t f : PUpdate)

/- If applies the provided PropertyUpdate if the provided predicate is true
(Go returns the update itself or the nil update). -/
def If (predicate : Bool) (du : PUpdate) : PUpdate :=
  if predicate then du else .emptyUpdate

mutual

/- Applying one PropertyUpdate to a builder: the update may touch the shared
string table and error sink and the builder's own property map, and returns
the error the Go closure returns (none = nil).  Chain applies its list via
the full With method on the same builder and returns nil itself. -/
def applyPU : PUpdate → Shared → Props → Shared × Props × Option String
  | .emptyUpdate, sh, p => (sh, p, none)
  | .errorProperty e, sh, p => (sh, p, some e)
  | .stringProperty k v, sh, p =>
    let (sh', p') := withStr sh p k v
    (sh', p', none)
  | .stringsProperty k vs, sh, p =>
    let (sh', p') := withStrs sh p k vs
    (sh', p', none)
  | .stringsPropertyExtended k vs, sh, p =>
    let (sh', p') := appendStrs sh p k vs
    (sh', p', none)
  | .integerProperty k v, sh, p =>
    let (sh', p') := withInt sh p k v
    (sh', p', none)
  | .integersProperty k vs, sh, p =>
    let (sh', p') := withInts sh p k vs
    (sh', p', none)
  | .doubleProperty k v, sh, p =>
    let (sh', p') := withDbl sh p k v
    (sh', p', none)
  | .durationProperty k v, sh, p =>
    let (sh', p') := withDuration sh p k v
    (sh', p', none)
  | .timestampProperty k v, sh, p =>
    let (sh', p') := withTimestamp sh p k v
    (sh', p', none)
  | .chain us, sh, p =>
    let (sh', p') := With sh p us
    (sh', p', none)
  | .ifElse b t f, sh, p =>
    if b then applyPU t sh p else applyPU f sh p
termination_by u => 2 * sizeOf u

/- datumBuilder.With: if the shared sink already has an error the whole call
does nothing; otherwise the updates run in order and the first failure is
recorded in the sink and stops the call. -/
def With (sh : Shared) (p : Props) (us : List PUpdate) : Shared × Props :=
  if sh.errs.hasError then (sh, p) else withGo sh p us
termination_by 2 * sizeOf us + 1

/- The update loop inside With. -/
def withGo (sh : Shared) (p : Props) : List PUpdate → Shared × Props
  | [] => (sh, p)
  | u :: rest =>
    match applyPU u sh p with
    | (sh', p', none) => withGo sh' p' rest
    | (sh', p', some e) => ({ sh' with errs := sh'.errs.add e }, p')
termination_by us => 2 * sizeOf us

end

/- Datum.MarshalJSON sorts the keys of the property map ascending with
sort.Slice; map keys are distinct, so any sorting algorithm produces the
same list. -/
def sortInt64s (ks : List Int) : List Int :=
  ks.mergeSort (fun a b => decide (a ≤ b))

/- Datum.MarshalJSON: [[ [key, V] in ascending key order ], [children in
stored order]]. -/
def marshalDatum (d : Datum) : J :=
  let keys := sortInt64s (d.Properties.map Prod.fst)
  J.arr [J.arr (keys.map (fun k =>
            J.arr [J.num (.jint k),
                   match lookupA d.Properties k with
                   | some v => marshalV v
                   | none => J.null])),
         J.arr (d.Children.attach.map (fun c => marshalDatum c.1))]
termination_by sizeOf d
decreasing_by
  cases d
  have hm := List.sizeOf_lt_of_mem c.2
  dsimp only at hm
  simp only [Datum.mk.sizeOf_spec]
  omega

/- DataSeries: a complete TraceViz data series response. -/
structure DataSeries where
  SeriesName : String
  Root : Datum

/- DataSeriesRequest: a request for a specific data series. -/
structure DataSeriesRequest where
  QueryName : String
  SeriesName : String
  Options : List (String × V)

/- DataRequest: a request for one or more data series. -/
structure DataRequest where
  GlobalFilters : List (String × V)
  SeriesRequests : List DataSeriesRequest

/- Data: a complete TraceViz data response. -/
structure Data where
  StringTable : List String
  DataSeries : List DataSeries

/- DataResponseBuilder: the response assembler owning the string table, the
error sink, and the Data under construction. -/
structure DataResponseBuilder where
  st : stringTable
  errs : errors
  d : Data

def NewDataResponseBuilder : DataResponseBuilder :=
  { st := emptyStringTable,
    errs := newErrors,
    d := { StringTable := [], DataSeries := [] } }

/- DataResponseBuilder.DataSeries appends a new (name, empty root) pair; the
returned builder (shared state plus the new root's property map) is the pair
threaded through With above. -/
def DataResponseBuilder.appendSeries (drb : DataResponseBuilder) (req : DataSeriesRequest) : DataResponseBuilder :=
  { drb with
    d := { drb.d with
           DataSeries := drb.d.DataSeries ++
             [{ SeriesName := req.SeriesName,
                Root := { Properties := [], Children := [] } }] } }

/- DataResponseBuilder.Data: a recorded failure yields the joined error and
no data; otherwise the string table is snapshotted into the response. -/
def DataResponseBuilder.Data (drb : DataResponseBuilder) : Option Data × Option String :=
  if drb.errs.hasError then (none, drb.errs.toError)
  else (some { drb.d with StringTable := drb.st.stringsByIndex }, none)

/- dataSource (package querydispatcher): the capability contract a data
source implements.  The cancellable context is dropped: cancellation is a
cooperative signal with no semantic effect in this sequential model.  The
handler consumes and returns the shared builder state and returns its error
(none = nil). -/
structure dataSource where
  SupportedDataSeriesQueries : List String
  HandleDataSeriesRequests :
    List (String × V) → DataResponseBuilder → List DataSeriesRequest →
      DataResponseBuilder × Option String

structure QueryDispatcher where
  dataSources : List dataSource
  dataSeriesQueryHandlers : List (String × Nat)

/- The inner loop of querydispatcher.New over one source's query names. -/
def registerQueries (handlers : List (String × Nat)) (dsIdx : Nat) :
    List String → Except String (List (String × Nat))
  | [] => .ok handlers
  | q :: rest =>
    match lookupA handlers q with
    | some _ => .error ("multiple dataSources handle trace query `" ++ q ++ "`")
    | none => registerQueries (handlers ++ [(q, dsIdx)]) dsIdx rest

/- The outer loop of querydispatcher.New over the sources. -/
def newGo (handlers : List (String × Nat)) (dsIdx : Nat) :
    List dataSource → Except String (List (String × Nat))
  | [] => .ok handlers
  | ds :: rest =>
    match registerQueries handlers dsIdx ds.SupportedDataSeriesQueries with
    | .error e => .error e
    | .ok h' => newGo h' (dsIdx + 1) rest

/- querydispatcher.New: register every source's query names, failing on a
name some earlier registration already claimed. -/
def QueryDispatcher.New (dss : List dataSource) : Except String QueryDispatcher :=
  match newGo [] 0 dss with
  | .error e => .error e
  | .ok h => .ok { dataSources := dss, dataSeriesQueryHandlers := h }

/- Append a series request to its source's group, preserving group order. -/
def addToGroup (groups : List (Nat × List DataSeriesRequest)) (i : Nat)
    (sr : DataSeriesRequest) : List (Nat × List DataSeriesRequest) :=
  match groups with
  | [] => [(i, [sr])]
  | (j, l) :: rest =>
    if j = i then (j, l ++ [sr]) :: rest else (j, l) :: addToGroup rest i sr

/- The grouping loop of HandleDataRequest: partition the sub-queries by
owning source, failing immediately on a query name no source registered. -/
def groupReqsGo (handlers : List (String × Nat))
    (acc : List (Nat × List DataSeriesRequest)) :
    List DataSeriesRequest → Except String (List (Nat × List DataSeriesRequest))
  | [] => .ok acc
  | sr :: rest =>
    match lookupA handlers sr.QueryName with
    | none => .error ("unsupported data query `" ++ sr.QueryName ++ "`")
    | some dsIdx => groupReqsGo handlers (addToGroup acc dsIdx sr) rest

/- Run the per-source units of work.  The errgroup launches one goroutine
per group and waits for all of them; a sequential execution in schedule
order models one interleaving.  All handlers run to completion against the
shared builder; the returned list collects the non-nil handler errors in
schedule order (errgroup.Wait reports the first of them). -/
def runHandlers (dss : List dataSource) (gf : List (String × V)) :
    DataResponseBuilder → List (Nat × List DataSeriesRequest) →
      DataResponseBuilder × List String
  | drb, [] => (drb, [])
  | drb, (i, reqs) :: rest =>
    match dss[i]? with
    | none => runHandlers dss gf drb rest
    | some ds =>
      let (drb', err?) := ds.HandleDataSeriesRequests gf drb reqs
      let (drbF, errList) := runHandlers dss gf drb' rest
      (drbF, (match err? with | some e => [e] | none => []) ++ errList)

/- QueryDispatcher.HandleDataRequest, parameterized by the order `sched` in
which the concurrent per-source units complete (any permutation of the
computed groups models one concurrent execution).  An unknown query name
fails the whole request before any work runs; otherwise all units run, and
a failing unit makes the request return no data and the first error;
otherwise the assembler finishes. -/
def HandleDataRequest (qd : QueryDispatcher) (req : DataRequest)
    (sched : List (Nat × List DataSeriesRequest)) : Option Data × Option String :=
  match groupReqsGo qd.dataSeriesQueryHandlers [] req.SeriesRequests with
  | .error e => (none, some e)
  | .ok _groups =>
    let (drbF, errList) :=
      runHandlers qd.dataSources req.GlobalFilters NewDataResponseBuilder sched
    match errList with
    | e :: _ => (none, some e)
    | [] => drbF.Data

/- Auxiliary definitions used only to state properties. -/

/- A V is constructible when it is the image of one of the nine exported
Value constructors. -/
def Constructible (v : V) : Prop :=
  (∃ s, v = StringValue s) ∨ (∃ i, v = StringIndexValue i) ∨
  (∃ ss, v = StringsValue ss) ∨ (∃ xs, v = StringIndicesValue xs) ∨
  (∃ i, v = IntegerValue i) ∨ (∃ xs, v = IntegersValue xs) ∨
  (∃ f, v = DoubleValue f) ∨ (∃ d, v = DurationValue d) ∨
  (∃ t, v = TimestampValue t)

/- Position of the first occurrence of a string in a list. -/
def firstIdx? (s : String) : List String → Option Nat
  | [] => none
  | t :: ts => if t = s then some 0 else (firstIdx? s ts).map (· + 1)

/- First-seen-order deduplication, extending an already deduplicated
accumulator. -/
def dedupGo (acc : List String) : List String → List String
  | [] => acc
  | s :: rest => if s ∈ acc then dedupGo acc rest else dedupGo (acc ++ [s]) rest

/- The string table's invariant: the index map is exactly first-occurrence
position in the table list. -/
def stringTable.WF (st : stringTable) : Prop :=
  ∀ s, lookupA st.stringsToIndices s =
    (firstIdx? s st.stringsByIndex).map Int.ofNat

/- Run a list of updates like withGo, but return none if any of them
reports an error; some (sh, p) means every update was applied and none
failed. -/
def applyAllOk (sh : Shared) (p : Props) : List PUpdate → Option (Shared × Props)
  | [] => some (sh, p)
  | u :: rest =>
    match applyPU u sh p with
    | (sh', p', none) => applyAllOk sh' p' rest
    | (_, _, some _) => none

/- Decidable equality for Except results, used to evaluate the embedded
functions on concrete inputs. -/
instance exceptDecEq {ε α : Type} [DecidableEq ε] [DecidableEq α] : DecidableEq (Except ε α)
  | .error a, .error b =>
    match decEq a b with
    | .isTrue h => .isTrue (congrArg Except.error h)
    | .isFalse h => .isFalse (fun hh => h (Except.error.inj hh))
  | .ok a, .ok b =>
    match decEq a b with
    | .isTrue h => .isTrue (congrArg Except.ok h)
    | .isFalse h => .isFalse (fun hh => h (Except.ok.inj hh))
  | .error _, .ok _ => .isFalse (fun h => Except.noConfusion h)
  | .ok _, .error _ => .isFalse (fun h => Except.noConfusion h)

/- Theorems. -/

/-- C9: the claim says every constructible timestamp Value stores signed
whole seconds plus a nanosecond remainder in [0, 1e9).  The code computes
the remainder with Go's truncated %, so the instant one nanosecond before
the Unix epoch is stored as seconds = -1, nanos = -1: the remainder is
negative, and reading the Value back through ExpectTimestampValue yields
the instant -1000000001 ns, a full second earlier than the original -1 ns.
The code contradicts its own accessor; the claim (and spec) state the
intended invariant. -/
theorem c9_timestamp_remainder_bug :
    TimestampValue (-1) = { V := Payload.ptimestamp (-1) (-1), T := TimestampValueType }
    ∧ ¬(0 ≤ (-1 : Int) ∧ (-1 : Int) < nanosPerSecond)
    ∧ ExpectTimestampValue (TimestampValue (-1)) = Except.ok (-1000000001)
    ∧ (-1000000001 : Int) ≠ timeUnixNano (-1) := by
  refine ⟨?_, ?_, ?_, ?_⟩ <;> decide

/-- C4: DataResponseBuilder.Data (finish) returns no data and the joined
error text when the sink has recorded at least one failure, and otherwise
the completed series forest with the snapshotted string table and no
error. -/
theorem c4_finish_all_or_nothing (drb : DataResponseBuilder) :
    (drb.errs.hasError = true → drb.errs.errs ≠ [] →
      DataResponseBuilder.Data drb =
        (none, some (String.intercalate ", " drb.errs.errs)))
    ∧ (drb.errs.hasError = false →
      DataResponseBuilder.Data drb =
        (some { StringTable := drb.st.stringsByIndex,
                DataSeries := drb.d.DataSeries }, none)) := by
  constructor
  · intro h hne
    simp [DataResponseBuilder.Data, h, errors.toError, errors.errorString, hne]
  · intro h
    simp [DataResponseBuilder.Data, h]

/-- C4 witness: a builder with one recorded failure returns no data and the
error text; a fresh builder returns its (empty) forest and no error. -/
theorem c4_witness :
    DataResponseBuilder.Data
      { st := emptyStringTable,
        errs := { hasError := true, errs := ["boom"] },
        d := { StringTable := [], DataSeries := [] } } = (none, some "boom")
    ∧ DataResponseBuilder.Data NewDataResponseBuilder =
        (some { StringTable := [], DataSeries := [] }, none) :=
  ⟨(c4_finish_all_or_nothing _).1 rfl (by decide),
   (c4_finish_all_or_nothing NewDataResponseBuilder).2 rfl⟩

/-- C8 counterexample: the claim says an accessor applied to a Value of the
matching tag returns the typed payload with no error.  The string accessor
URL-query-unescapes the payload, so on the string Value "+" it returns " "
instead of the stored payload "+". -/
theorem c8_counterexample :
    ExpectStringValue (StringValue "+") = Except.ok " "
    ∧ ExpectStringValue (StringValue "+") ≠ Except.ok "+" := by
  refine ⟨?_, ?_⟩ <;> decide

/-- C8 amended: each expect-as-T accessor checks the tag.  On a mismatch it
fails with its fixed message, which names the expected tag except that the
integers accessor says 'str_idxs' and the timestamp accessor says
'duration'.  On a match it returns the stored payload, except that the
string accessor returns the URL-query-unescaped payload (failing when
unescaping fails) and the timestamp accessor converts the stored pair to an
instant via time.Unix. -/
theorem c8_expect_accessors :
    (∀ s, ExpectStringValue (StringValue s) = queryUnescape s)
    ∧ (∀ v : V, v.T ≠ StringValueType →
        ExpectStringValue v = .error "expected value type 'str'")
    ∧ (∀ ss, ExpectStringsValue (StringsValue ss) = .ok ss)
    ∧ (∀ v : V, v.T ≠ StringsValueType →
        ExpectStringsValue v = .error "expected value type 'strs'")
    ∧ (∀ i, ExpectIntegerValue (IntegerValue i) = .ok i)
    ∧ (∀ v : V, v.T ≠ IntegerValueType →
        ExpectIntegerValue v = .error "expected value type 'int'")
    ∧ (∀ xs, ExpectIntegersValue (IntegersValue xs) = .ok xs)
    ∧ (∀ v : V, v.T ≠ IntegersValueType →
        ExpectIntegersValue v = .error "expected value type 'str_idxs'")
    ∧ (∀ f, ExpectDoubleValue (DoubleValue f) = .ok f)
    ∧ (∀ v : V, v.T ≠ DoubleValueType →
        ExpectDoubleValue v = .error "expected value type 'dbl'")
    ∧ (∀ d, ExpectDurationValue (DurationValue d) = .ok d)
    ∧ (∀ v : V, v.T ≠ DurationValueType →
        ExpectDurationValue v = .error "expected value type 'duration'")
    ∧ (∀ t, ExpectTimestampValue (TimestampValue t) =
        .ok (timeUnix (timeUnixSeconds t) (Int.tmod t nanosPerSecond)))
    ∧ (∀ v : V, v.T ≠ TimestampValueType →
        ExpectTimestampValue v = .error "expected value type 'duration'") := by
  refine ⟨?_, ?_, ?_, ?_, ?_, ?_, ?_, ?_, ?_, ?_, ?_, ?_, ?_, ?_⟩
  · intro s
    simp [ExpectStringValue, StringValue, StringValueType]
  · intro v h
    unfold ExpectStringValue
    rw [if_pos h]
  · intro ss
    simp [ExpectStringsValue, StringsValue, StringsValueType]
  · intro v h
    unfold ExpectStringsValue
    rw [if_pos h]
  · intro i
    simp [ExpectIntegerValue, IntegerValue, IntegerValueType]
  · intro v h
    unfold ExpectIntegerValue
    rw [if_pos h]
  · intro xs
    simp [ExpectIntegersValue, IntegersValue, IntegersValueType]
  · intro v h
    unfold ExpectIntegersValue
    rw [if_pos h]
  · intro f
    simp [ExpectDoubleValue, DoubleValue, DoubleValueType]
  · intro v h
    unfold ExpectDoubleValue
    rw [if_pos h]
  · intro d
    simp [ExpectDurationValue, DurationValue, DurationValueType]
  · intro v h
    unfold ExpectDurationValue
    rw [if_pos h]
  · intro t
    simp [ExpectTimestampValue, TimestampValue, TimestampValueType, timeUnixSeconds, timeUnixNano]
  · intro v h
    unfold ExpectTimestampValue
    rw [if_pos h]

/-- C8 witness: the amended characterization evaluated at concrete Values,
discharging the tag hypotheses of the mismatch clauses. -/
theorem c8_witness :
    ExpectIntegerValue (IntegerValue 7) = .ok 7
    ∧ ExpectStringValue (IntegerValue 7) = .error "expected value type 'str'"
    ∧ ExpectStringsValue (IntegerValue 7) = .error "expected value type 'strs'"
    ∧ ExpectIntegerValue (StringValue "x") = .error "expected value type 'int'"
    ∧ ExpectIntegersValue (IntegerValue 7) = .error "expected value type 'str_idxs'"
    ∧ ExpectDoubleValue (IntegerValue 7) = .error "expected value type 'dbl'"
    ∧ ExpectDurationValue (IntegerValue 7) = .error "expected value type 'duration'"
    ∧ ExpectTimestampValue (IntegerValue 7) = .error "expected value type 'duration'" := by
  have h := c8_expect_accessors
  exact ⟨h.2.2.2.2.1 7,
    h.2.1 (IntegerValue 7) (by decide),
    h.2.2.2.1 (IntegerValue 7) (by decide),
    h.2.2.2.2.2.1 (StringValue "x") (by decide),
    h.2.2.2.2.2.2.2.1 (IntegerValue 7) (by decide),
    h.2.2.2.2.2.2.2.2.2.1 (IntegerValue 7) (by decide),
    h.2.2.2.2.2.2.2.2.2.2.2.1 (IntegerValue 7) (by decide),
    h.2.2.2.2.2.2.2.2.2.2.2.2.2 (IntegerValue 7) (by decide)⟩

/- The decode loop over an encoded string list returns the unescaped
elements; when every element is invariant under unescaping it returns the
original list. -/
theorem decodeStrings_map_str : ∀ ss : List String,
    (∀ s ∈ ss, queryUnescape s = Except.ok s) →
    decodeStrings (ss.map J.str) = Except.ok ss := by
  intro ss
  induction ss with
  | nil => intro _; rfl
  | cons s rest ih =>
    intro h
    have hs : queryUnescape s = Except.ok s := h s (List.mem_cons_self _ _)
    have hr := ih (fun x hx => h x (List.mem_cons_of_mem _ hx))
    simp [decodeStrings, jAsString, Bind.bind, Except.bind, hs, hr]

/- The decode loop over an encoded integer list returns the original
integers exactly: each element passes through json.Number.Int64. -/
theorem decodeInt64s_map_int : ∀ xs : List Int,
    decodeInt64s (xs.map (fun i => J.num (JNum.jint i))) = Except.ok xs := by
  intro xs
  induction xs with
  | nil => rfl
  | cons x rest ih =>
    simp [decodeInt64s, jAsNumber, jnumInt64, Bind.bind, Except.bind, ih]

/-- C1 counterexample: the claim says decode(encode(v)) == v for every
constructible Value.  Encoding does not escape strings but decoding
URL-query-unescapes the elements of a string-list Value, so the
constructible Value Strings(["+"]) decodes to Strings([" "]), a different
Value. -/
theorem c1_counterexample :
    unmarshalV (marshalV (StringsValue ["+"])) = Except.ok (StringsValue [" "])
    ∧ StringsValue [" "] ≠ StringsValue ["+"] := by
  refine ⟨?_, ?_⟩ <;> decide

/-- C1 amended: decode(encode(v)) == v for every constructible Value whose
string-list elements are invariant under URL query unescaping (in
particular they contain no '+' and no percent escape).  64-bit integers,
string indices, integer lists, durations and timestamps pass through
json.Number tokens exactly; doubles carry their bit pattern through
unchanged; scalar strings are stored raw by the decoder's default branch. -/
theorem c1_roundtrip (v : V) (hc : Constructible v)
    (hstrs : ∀ ss, v.V = Payload.pstrings ss → ∀ s ∈ ss, queryUnescape s = Except.ok s) :
    unmarshalV (marshalV v) = Except.ok v := by
  rcases hc with ⟨s, rfl⟩ | ⟨i, rfl⟩ | ⟨ss, rfl⟩ | ⟨xs, rfl⟩ | ⟨i, rfl⟩ | ⟨xs, rfl⟩ |
    ⟨f, rfl⟩ | ⟨d, rfl⟩ | ⟨t, rfl⟩
  · simp [marshalV, marshalPayload, unmarshalV, vFromAny, jAsNumber, jnumInt64,
      Bind.bind, Except.bind, StringValue, payloadOfRaw,
      StringValueType, StringIndexValueType, IntegerValueType, StringsValueType,
      DoubleValueType, StringIndicesValueType, IntegersValueType,
      DurationValueType, TimestampValueType]
  · simp [marshalV, marshalPayload, unmarshalV, vFromAny, jAsNumber, jnumInt64,
      Bind.bind, Except.bind, StringIndexValue,
      StringValueType, StringIndexValueType, IntegerValueType, StringsValueType,
      DoubleValueType, StringIndicesValueType, IntegersValueType,
      DurationValueType, TimestampValueType]
  · have h := hstrs ss rfl
    simp [marshalV, marshalPayload, unmarshalV, vFromAny, jAsNumber, jnumInt64,
      jAsArr, Bind.bind, Except.bind, StringsValue, decodeStrings_map_str ss h,
      StringValueType, StringIndexValueType, IntegerValueType, StringsValueType,
      DoubleValueType, StringIndicesValueType, IntegersValueType,
      DurationValueType, TimestampValueType]
  · simp [marshalV, marshalPayload, unmarshalV, vFromAny, jAsNumber, jnumInt64,
      jAsArr, Bind.bind, Except.bind, StringIndicesValue, decodeInt64s_map_int,
      StringValueType, StringIndexValueType, IntegerValueType, StringsValueType,
      DoubleValueType, StringIndicesValueType, IntegersValueType,
      DurationValueType, TimestampValueType]
  · simp [marshalV, marshalPayload, unmarshalV, vFromAny, jAsNumber, jnumInt64,
      Bind.bind, Except.bind, IntegerValue,
      StringValueType, StringIndexValueType, IntegerValueType, StringsValueType,
      DoubleValueType, StringIndicesValueType, IntegersValueType,
      DurationValueType, TimestampValueType]
  · simp [marshalV, marshalPayload, unmarshalV, vFromAny, jAsNumber, jnumInt64,
      jAsArr, Bind.bind, Except.bind, IntegersValue, decodeInt64s_map_int,
      StringValueType, StringIndexValueType, IntegerValueType, StringsValueType,
      DoubleValueType, StringIndicesValueType, IntegersValueType,
      DurationValueType, TimestampValueType]
  · simp [marshalV, marshalPayload, unmarshalV, vFromAny, jAsNumber, jnumInt64,
      jnumFloat64, Bind.bind, Except.bind, DoubleValue,
      StringValueType, StringIndexValueType, IntegerValueType, StringsValueType,
      DoubleValueType, StringIndicesValueType, IntegersValueType,
      DurationValueType, TimestampValueType]
  · simp [marshalV, marshalPayload, unmarshalV, vFromAny, jAsNumber, jnumInt64,
      Bind.bind, Except.bind, DurationValue,
      StringValueType, StringIndexValueType, IntegerValueType, StringsValueType,
      DoubleValueType, StringIndicesValueType, IntegersValueType,
      DurationValueType, TimestampValueType]
  · simp [marshalV, marshalPayload, unmarshalV, vFromAny, jAsNumber, jnumInt64,
      jAsArr, Bind.bind, Except.bind, TimestampValue,
      StringValueType, StringIndexValueType, IntegerValueType, StringsValueType,
      DoubleValueType, StringIndicesValueType, IntegersValueType,
      DurationValueType, TimestampValueType]

/-- C1 witness: the amended round-trip law at an integer, a timestamp and a
string list whose elements contain no escapes. -/
theorem c1_witness :
    unmarshalV (marshalV (IntegerValue 5)) = Except.ok (IntegerValue 5)
    ∧ unmarshalV (marshalV (TimestampValue 1500000000123456789)) =
        Except.ok (TimestampValue 1500000000123456789)
    ∧ unmarshalV (marshalV (StringsValue ["ant", "bee"])) =
        Except.ok (StringsValue ["ant", "bee"]) := by
  refine ⟨c1_roundtrip _ ?_ ?_, c1_roundtrip _ ?_ ?_, c1_roundtrip _ ?_ ?_⟩
  · exact Or.inr (Or.inr (Or.inr (Or.inr (Or.inl ⟨5, rfl⟩))))
  · intro ss h
    exact nomatch h
  · exact Or.inr (Or.inr (Or.inr (Or.inr (Or.inr (Or.inr (Or.inr (Or.inr ⟨1500000000123456789, rfl⟩)))))))
  · intro ss h
    exact nomatch h
  · exact Or.inr (Or.inr (Or.inl ⟨["ant", "bee"], rfl⟩))
  · intro ss h
    injection h with h'
    subst h'
    decide

/- Running the With loop over a prefix none of whose updates fails reaches
exactly the state applyAllOk computes, and then continues with the rest. -/
theorem withGo_of_applyAllOk : ∀ (us : List PUpdate) (sh : Shared) (p : Props)
    (sh1 : Shared) (p1 : Props) (rest : List PUpdate),
    applyAllOk sh p us = some (sh1, p1) →
    withGo sh p (us ++ rest) = withGo sh1 p1 rest := by
  intro us
  induction us with
  | nil =>
    intro sh p sh1 p1 rest h
    simp only [applyAllOk, Option.some.injEq, Prod.mk.injEq] at h
    rw [List.nil_append, h.1, h.2]
  | cons u us ih =>
    intro sh p sh1 p1 rest h
    simp only [applyAllOk] at h
    rcases hap : applyPU u sh p with ⟨sh', p', e?⟩
    rw [hap] at h
    cases e? with
    | some e => simp at h
    | none =>
      simp only at h
      rw [List.cons_append]
      rw [withGo, hap]
      exact ih sh' p' sh1 p1 rest h

/-- C2 counterexample: the claim says an independent applyUpdates (With)
call on a sibling builder sharing the error sink is unaffected by another
call's failure and still succeeds.  With checks the shared sink on entry,
so after one builder's call fails, a sibling builder's later call applies
none of its updates: its node stays empty, although running the same call's
loop body (withGo) would have set the property x = 5. -/
theorem c2_counterexample :
    (With { st := emptyStringTable, errs := newErrors } []
        [PUpdate.errorProperty "oops"]).1.errs.hasError = true
    ∧ (With (With { st := emptyStringTable, errs := newErrors } []
        [PUpdate.errorProperty "oops"]).1 [] [PUpdate.integerProperty "x" 5]).2 = []
    ∧ (withGo (With { st := emptyStringTable, errs := newErrors } []
        [PUpdate.errorProperty "oops"]).1 [] [PUpdate.integerProperty "x" 5]).2 =
        [(0, IntegerValue 5)] := by
  have h1 : With { st := emptyStringTable, errs := newErrors } []
      [PUpdate.errorProperty "oops"] =
      ({ st := emptyStringTable, errs := { hasError := true, errs := ["oops"] } }, []) := by
    rw [With]
    simp [newErrors, withGo, applyPU, errors.add]
  refine ⟨by rw [h1], ?_, ?_⟩
  · rw [h1, With]
    simp
  · rw [h1, withGo]
    simp [applyPU, withInt, stringTable.stringIndex, stringTable.lookupStringIndex,
      lookupA, emptyStringTable, setA, IntValue, withGo]

/-- C2 amended: within one With (applyUpdates) call entered with a clean
sink, the updates run strictly in order: if the updates before the i-th all
succeed and the i-th fails, the call keeps everything the prefix applied,
records the failure in the shared sink, and skips the updates after the
i-th.  A call entered with a clean sink none of whose updates fails applies
all of them.  But once the shared sink has recorded any failure, every
subsequent With call on any builder sharing that sink (including sibling
nodes) applies none of its updates. -/
theorem c2_apply_updates (sh : Shared) (p : Props) :
    (∀ (us1 : List PUpdate) (u : PUpdate) (us2 : List PUpdate)
        (sh1 sh2 : Shared) (p1 p2 : Props) (e : String),
        sh.errs.hasError = false →
        applyAllOk sh p us1 = some (sh1, p1) →
        applyPU u sh1 p1 = (sh2, p2, some e) →
        With sh p (us1 ++ u :: us2) = ({ sh2 with errs := sh2.errs.add e }, p2))
    ∧ (∀ (us : List PUpdate) (sh' : Shared) (p' : Props),
        sh.errs.hasError = false →
        applyAllOk sh p us = some (sh', p') →
        With sh p us = (sh', p'))
    ∧ (∀ us : List PUpdate, sh.errs.hasError = true → With sh p us = (sh, p)) := by
  refine ⟨?_, ?_, ?_⟩
  · intro us1 u us2 sh1 sh2 p1 p2 e hclean hok hfail
    rw [With]
    simp only [hclean, Bool.false_eq_true, if_false]
    rw [withGo_of_applyAllOk us1 sh p sh1 p1 (u :: us2) hok]
    rw [withGo, hfail]
  · intro us sh' p' hclean hok
    rw [With]
    simp only [hclean, Bool.false_eq_true, if_false]
    have := withGo_of_applyAllOk us sh p sh' p' [] hok
    rw [List.append_nil] at this
    rw [this, withGo]
  · intro us herr
    rw [With]
    simp [herr]

/-- C2 witness: a call that fails on its second update keeps the first
update's property, records the failure, and skips the third update; a
clean sibling call before any failure applies its update; a call after a
recorded failure applies nothing. -/
theorem c2_witness :
    With { st := emptyStringTable, errs := newErrors } []
      [PUpdate.integerProperty "x" 5, PUpdate.errorProperty "oops",
       PUpdate.integerProperty "y" 6] =
      ({ st := { stringsToIndices := [("x", 0)], stringsByIndex := ["x"] },
         errs := { hasError := true, errs := ["oops"] } }, [(0, IntegerValue 5)])
    ∧ With { st := emptyStringTable, errs := newErrors } []
        [PUpdate.integerProperty "x" 5] =
        ({ st := { stringsToIndices := [("x", 0)], stringsByIndex := ["x"] },
           errs := newErrors }, [(0, IntegerValue 5)])
    ∧ With { st := emptyStringTable, errs := { hasError := true, errs := ["oops"] } }
        [] [PUpdate.integerProperty "x" 5] =
        ({ st := emptyStringTable, errs := { hasError := true, errs := ["oops"] } }, []) := by
  refine ⟨?_, ?_, ?_⟩
  · have h := (c2_apply_updates { st := emptyStringTable, errs := newErrors } []).1
      [PUpdate.integerProperty "x" 5] (PUpdate.errorProperty "oops")
      [PUpdate.integerProperty "y" 6]
      { st := { stringsToIndices := [("x", 0)], stringsByIndex := ["x"] },
        errs := newErrors }
      { st := { stringsToIndices := [("x", 0)], stringsByIndex := ["x"] },
        errs := newErrors }
      [(0, IntegerValue 5)] [(0, IntegerValue 5)] "oops" rfl
      (by simp [applyAllOk, applyPU, withInt, stringTable.stringIndex,
        stringTable.lookupStringIndex, lookupA, emptyStringTable, setA, IntValue])
      (by simp [applyPU])
    exact h
  · exact (c2_apply_updates { st := emptyStringTable, errs := newErrors } []).2.1
      [PUpdate.integerProperty "x" 5]
      { st := { stringsToIndices := [("x", 0)], stringsByIndex := ["x"] },
        errs := newErrors }
      [(0, IntegerValue 5)] rfl
      (by simp [applyAllOk, applyPU, withInt, stringTable.stringIndex,
        stringTable.lookupStringIndex, lookupA, emptyStringTable, setA, IntValue])
  · exact (c2_apply_updates _ _).2.2 [PUpdate.integerProperty "x" 5] rfl

/- A lookup misses exactly when the key is not among the stored keys. -/
theorem lookupA_eq_none_iff {α β : Type} [DecidableEq α] :
    ∀ (l : List (α × β)) (k : α), lookupA l k = none ↔ k ∉ l.map Prod.fst := by
  intro l
  induction l with
  | nil => intro k; simp [lookupA]
  | cons kv rest ih =>
    intro k
    rcases kv with ⟨k', v⟩
    by_cases h : k' = k
    · subst h
      simp [lookupA]
    · simp [lookupA, h, ih k, Ne.symm h]

/- The grouping loop fails whenever some sub-query's name is unknown to the
handler map, whatever has been grouped so far. -/
theorem groupReqsGo_error_of_unknown (handlers : List (String × Nat)) :
    ∀ (srs : List DataSeriesRequest) (acc : List (Nat × List DataSeriesRequest)),
    (∃ sr ∈ srs, lookupA handlers sr.QueryName = none) →
    ∃ e, groupReqsGo handlers acc srs = Except.error e := by
  intro srs
  induction srs with
  | nil =>
    rintro acc ⟨sr, h, _⟩
    exact absurd h (List.not_mem_nil _)
  | cons sr rest ih =>
    rintro acc ⟨sr', hmem, hnone⟩
    rcases List.mem_cons.mp hmem with rfl | hmem'
    · exact ⟨"unsupported data query `" ++ sr'.QueryName ++ "`",
        by simp [groupReqsGo, hnone]⟩
    · cases hl : lookupA handlers sr.QueryName with
      | none => exact ⟨"unsupported data query `" ++ sr.QueryName ++ "`",
          by simp [groupReqsGo, hl]⟩
      | some i =>
        obtain ⟨e, he⟩ := ih (addToGroup acc i sr) ⟨sr', hmem', hnone⟩
        exact ⟨e, by simp [groupReqsGo, hl, he]⟩

/-- C7: a request containing a sub-query whose query name no registered
source supports fails as a whole: HandleDataRequest returns nil data and a
non-nil error, with no partial results, under every completion schedule. -/
theorem c7_unknown_query (qd : QueryDispatcher) (req : DataRequest)
    (sched : List (Nat × List DataSeriesRequest)) (sr : DataSeriesRequest)
    (hmem : sr ∈ req.SeriesRequests)
    (hnone : lookupA qd.dataSeriesQueryHandlers sr.QueryName = none) :
    ∃ e, HandleDataRequest qd req sched = (none, some e) := by
  obtain ⟨e, he⟩ :=
    groupReqsGo_error_of_unknown qd.dataSeriesQueryHandlers req.SeriesRequests []
      ⟨sr, hmem, hnone⟩
  exact ⟨e, by simp [HandleDataRequest, he]⟩

/-- C7 witness: a dispatcher registered only for "Alpha" fails a request
naming "Gamma". -/
theorem c7_witness :
    HandleDataRequest
      { dataSources :=
          [{ SupportedDataSeriesQueries := ["Alpha"],
             HandleDataSeriesRequests := fun _ drb _ => (drb, none) }],
        dataSeriesQueryHandlers := [("Alpha", 0)] }
      { GlobalFilters := [],
        SeriesRequests := [{ QueryName := "Gamma", SeriesName := "g", Options := [] }] }
      [] = (none, some "unsupported data query `Gamma`") := by
  have h := c7_unknown_query
    { dataSources :=
        [{ SupportedDataSeriesQueries := ["Alpha"],
           HandleDataSeriesRequests := fun _ drb _ => (drb, none) }],
      dataSeriesQueryHandlers := [("Alpha", 0)] }
    { GlobalFilters := [],
      SeriesRequests := [{ QueryName := "Gamma", SeriesName := "g", Options := [] }] }
    [] { QueryName := "Gamma", SeriesName := "g", Options := [] }
    (List.mem_cons_self _ _) rfl
  obtain ⟨e, he⟩ := h
  rfl

/-- C3: when the sub-queries of a request group onto two or more sources
and at least one source's handler returns an error (the run's error list is
non-empty), HandleDataRequest returns nil data and the first error,
whatever order the concurrent units completed in (any permutation `sched`
of the computed groups). -/
theorem c3_all_or_nothing (qd : QueryDispatcher) (req : DataRequest)
    (groups sched : List (Nat × List DataSeriesRequest)) (e : String) (rest : List String)
    (hg : groupReqsGo qd.dataSeriesQueryHandlers [] req.SeriesRequests = .ok groups)
    (_hperm : sched.Perm groups) (_htwo : 2 ≤ groups.length)
    (hrun : (runHandlers qd.dataSources req.GlobalFilters NewDataResponseBuilder sched).2 = e :: rest) :
    HandleDataRequest qd req sched = (none, some e) := by
  rcases hr : runHandlers qd.dataSources req.GlobalFilters NewDataResponseBuilder sched
    with ⟨drbF, errList⟩
  rw [hr] at hrun
  simp only at hrun
  subst hrun
  simp [HandleDataRequest, hg, hr]

/-- C3 witness: sources for "Alpha" (succeeds) and "Beta" (fails) handle one
sub-query each; with the successful unit completing first, the request
still returns no data and the failure. -/
theorem c3_witness :
    HandleDataRequest
      { dataSources :=
          [{ SupportedDataSeriesQueries := ["Alpha"],
             HandleDataSeriesRequests := fun _ drb _ => (drb, none) },
           { SupportedDataSeriesQueries := ["Beta"],
             HandleDataSeriesRequests := fun _ drb _ => (drb, some "beta failed") }],
        dataSeriesQueryHandlers := [("Alpha", 0), ("Beta", 1)] }
      { GlobalFilters := [],
        SeriesRequests :=
          [{ QueryName := "Alpha", SeriesName := "a", Options := [] },
           { QueryName := "Beta", SeriesName := "b", Options := [] }] }
      [(0, [{ QueryName := "Alpha", SeriesName := "a", Options := [] }]),
       (1, [{ QueryName := "Beta", SeriesName := "b", Options := [] }])] =
      (none, some "beta failed") :=
  c3_all_or_nothing _ _
    [(0, [{ QueryName := "Alpha", SeriesName := "a", Options := [] }]),
     (1, [{ QueryName := "Beta", SeriesName := "b", Options := [] }])]
    _ "beta failed" [] rfl (List.Perm.refl _) (Nat.le_refl 2) rfl

/- registerQueries keeps already-registered names and appends the new ones
in order. -/
theorem registerQueries_keys : ∀ (qs : List String) (handlers : List (String × Nat))
    (i : Nat) (h' : List (String × Nat)),
    registerQueries handlers i qs = .ok h' →
    h'.map Prod.fst = handlers.map Prod.fst ++ qs := by
  intro qs
  induction qs with
  | nil =>
    intro handlers i h' h
    simp only [registerQueries, Except.ok.injEq] at h
    simp [← h]
  | cons q rest ih =>
    intro handlers i h' h
    simp only [registerQueries] at h
    cases hl : lookupA handlers q with
    | some v => rw [hl] at h; exact absurd h (by simp)
    | none =>
      rw [hl] at h
      have := ih (handlers ++ [(q, i)]) i h' h
      simpa using this

/- registerQueries succeeds exactly when the new names collide neither with
the already-registered names nor with each other. -/
theorem registerQueries_ok_iff : ∀ (qs : List String) (handlers : List (String × Nat))
    (i : Nat), (handlers.map Prod.fst).Nodup →
    ((∃ h', registerQueries handlers i qs = .ok h') ↔
      (handlers.map Prod.fst ++ qs).Nodup) := by
  intro qs
  induction qs with
  | nil =>
    intro handlers i hnd
    simp [registerQueries, hnd]
  | cons q rest ih =>
    intro handlers i hnd
    simp only [registerQueries]
    cases hl : lookupA handlers q with
    | some v =>
      have hmem : q ∈ handlers.map Prod.fst := by
        by_contra hq
        rw [(lookupA_eq_none_iff handlers q).mpr hq] at hl
        exact Option.noConfusion hl
      constructor
      · rintro ⟨h', hh⟩
        exact absurd hh (by simp)
      · intro hall
        rw [List.nodup_append] at hall
        exact absurd (hall.2.2 hmem (List.mem_cons_self _ _)) (fun h => h)
    | none =>
      have hq : q ∉ handlers.map Prod.fst := (lookupA_eq_none_iff handlers q).mp hl
      have hnd' : ((handlers ++ [(q, i)]).map Prod.fst).Nodup := by
        simp only [List.map_append]
        rw [List.nodup_append]
        refine ⟨hnd, by simp, ?_⟩
        intro a ha hb
        simp at hb
        subst hb
        exact hq ha
      have := ih (handlers ++ [(q, i)]) i hnd'
      rw [this]
      have heq : (handlers ++ [(q, i)]).map Prod.fst ++ rest =
          handlers.map Prod.fst ++ q :: rest := by
        simp
      rw [heq]

/- The outer registration loop succeeds exactly when no declared query name
is duplicated, within a source or across sources. -/
theorem newGo_ok_iff : ∀ (dss : List dataSource) (handlers : List (String × Nat))
    (i : Nat), (handlers.map Prod.fst).Nodup →
    ((∃ h', newGo handlers i dss = .ok h') ↔
      (handlers.map Prod.fst ++
        dss.flatMap dataSource.SupportedDataSeriesQueries).Nodup) := by
  intro dss
  induction dss with
  | nil =>
    intro handlers i hnd
    simp [newGo, hnd]
  | cons ds rest ih =>
    intro handlers i hnd
    simp only [newGo]
    cases hr : registerQueries handlers i ds.SupportedDataSeriesQueries with
    | error e =>
      have hno : ¬(handlers.map Prod.fst ++ ds.SupportedDataSeriesQueries).Nodup := by
        intro hcon
        obtain ⟨h', hh⟩ := (registerQueries_ok_iff _ handlers i hnd).mpr hcon
        rw [hr] at hh
        exact Except.noConfusion hh
      constructor
      · rintro ⟨h', hh⟩
        exact absurd hh (by simp)
      · intro hall
        refine absurd (List.Nodup.sublist ?_ hall) hno
        rw [List.flatMap_cons, ← List.append_assoc]
        exact List.sublist_append_left _ _
    | ok h1 =>
      have hkeys := registerQueries_keys _ handlers i h1 hr
      have hnd1 : (h1.map Prod.fst).Nodup := by
        rw [hkeys]
        exact (registerQueries_ok_iff _ handlers i hnd).mp ⟨h1, hr⟩
      have := ih h1 (i + 1) hnd1
      rw [this, hkeys]
      rw [List.flatMap_cons, List.append_assoc]

/-- C6: constructing a QueryDispatcher succeeds exactly when the query
names declared across all the provided sources are pairwise distinct; any
source declaring a name another registration already claimed makes New
return an error and no dispatcher (no silent override). -/
theorem c6_registration_conflict (dss : List dataSource) :
    (∃ qd, QueryDispatcher.New dss = .ok qd) ↔
      (dss.flatMap dataSource.SupportedDataSeriesQueries).Nodup := by
  have h := newGo_ok_iff dss [] 0 (by simp)
  simp only [List.map_nil, List.nil_append] at h
  rw [← h]
  unfold QueryDispatcher.New
  cases hn : newGo [] 0 dss with
  | error e => simp
  | ok h1 => simp

/-- C6 witness: two sources with distinct names construct a dispatcher;
two sources both claiming "Q" do not. -/
theorem c6_witness :
    (∃ qd, QueryDispatcher.New
      [{ SupportedDataSeriesQueries := ["Alpha"],
         HandleDataSeriesRequests := fun _ drb _ => (drb, none) },
       { SupportedDataSeriesQueries := ["Beta"],
         HandleDataSeriesRequests := fun _ drb _ => (drb, none) }] = .ok qd)
    ∧ ¬(∃ qd, QueryDispatcher.New
      [{ SupportedDataSeriesQueries := ["Q"],
         HandleDataSeriesRequests := fun _ drb _ => (drb, none) },
       { SupportedDataSeriesQueries := ["Q"],
         HandleDataSeriesRequests := fun _ drb _ => (drb, none) }] = .ok qd) :=
  ⟨(c6_registration_conflict _).mpr (by simp),
   fun h => absurd ((c6_registration_conflict _).mp h) (by simp)⟩

/- Facts about first-occurrence positions. -/

theorem firstIdx?_eq_none_iff (s : String) : ∀ l : List String,
    firstIdx? s l = none ↔ s ∉ l := by
  intro l
  induction l with
  | nil => simp [firstIdx?]
  | cons t ts ih =>
    by_cases h : t = s
    · subst h
      simp [firstIdx?]
    · simp [firstIdx?, h, Option.map_eq_none', ih, Ne.symm h]

theorem firstIdx?_append_of_some (s : String) :
    ∀ (l1 : List String) (n : Nat), firstIdx? s l1 = some n →
    ∀ l2 : List String, firstIdx? s (l1 ++ l2) = some n := by
  intro l1
  induction l1 with
  | nil => intro n h; exact absurd h (by simp [firstIdx?])
  | cons t ts ih =>
    intro n h l2
    rw [List.cons_append]
    by_cases ht : t = s
    · subst ht
      simp only [firstIdx?, if_pos rfl] at h ⊢
      exact h
    · simp only [firstIdx?, if_neg ht] at h ⊢
      rcases Option.map_eq_some'.mp h with ⟨m, hm, rfl⟩
      rw [ih m hm l2, Option.map_some']

theorem firstIdx?_append_of_none (s : String) :
    ∀ l1 : List String, firstIdx? s l1 = none →
    ∀ l2 : List String,
      firstIdx? s (l1 ++ l2) = (firstIdx? s l2).map (· + l1.length) := by
  intro l1
  induction l1 with
  | nil => intro _ l2; simp
  | cons t ts ih =>
    intro h l2
    rw [List.cons_append]
    by_cases ht : t = s
    · subst ht
      simp [firstIdx?] at h
    · simp only [firstIdx?, if_neg ht, Option.map_eq_none'] at h
      simp only [firstIdx?, if_neg ht, ih h l2, Option.map_map]
      refine congrArg (fun f => Option.map f (firstIdx? s l2)) (funext fun m => ?_)
      simp only [Function.comp_apply, List.length_cons]
      omega

theorem firstIdx?_append_singleton (s : String) (l : List String) (h : s ∉ l) :
    firstIdx? s (l ++ [s]) = some l.length := by
  rw [firstIdx?_append_of_none s l ((firstIdx?_eq_none_iff s l).mpr h)]
  simp [firstIdx?]

/- Lookup through an appended association list. -/

theorem lookupA_append_of_some {α β : Type} [DecidableEq α] :
    ∀ (l1 : List (α × β)) (k : α) (v : β), lookupA l1 k = some v →
    ∀ l2, lookupA (l1 ++ l2) k = some v := by
  intro l1
  induction l1 with
  | nil => intro k v h; exact absurd h (by simp [lookupA])
  | cons kv rest ih =>
    intro k v h l2
    rcases kv with ⟨k', v'⟩
    by_cases hk : k' = k
    · subst hk
      simp [lookupA] at h ⊢
      exact h
    · simp only [lookupA, if_neg hk] at h ⊢
      exact ih k v h l2

theorem lookupA_append_of_none {α β : Type} [DecidableEq α] :
    ∀ (l1 : List (α × β)) (k : α), lookupA l1 k = none →
    ∀ l2, lookupA (l1 ++ l2) k = lookupA l2 k := by
  intro l1
  induction l1 with
  | nil => intro k _ l2; rfl
  | cons kv rest ih =>
    intro k h l2
    rcases kv with ⟨k', v'⟩
    by_cases hk : k' = k
    · subst hk
      simp [lookupA] at h
    · simp only [lookupA, if_neg hk] at h ⊢
      exact ih k h l2

/- The string table invariant holds initially and is preserved by
stringIndex; under it a present string returns its first-occurrence
position and leaves the table unchanged, and a fresh string is appended
with the next index. -/

theorem WF_empty : emptyStringTable.WF := fun _ => rfl

theorem stringIndex_of_mem (st : stringTable) (hwf : st.WF) (s : String) (n : Nat)
    (h : firstIdx? s st.stringsByIndex = some n) :
    st.stringIndex s = (Int.ofNat n, st) := by
  unfold stringTable.stringIndex stringTable.lookupStringIndex
  rw [hwf s, h, Option.map_some']

theorem stringIndex_of_not_mem (st : stringTable) (hwf : st.WF) (s : String)
    (h : s ∉ st.stringsByIndex) :
    st.stringIndex s =
      ((st.stringsByIndex.length : Int),
       { stringsToIndices :=
           st.stringsToIndices ++ [(s, (st.stringsByIndex.length : Int))],
         stringsByIndex := st.stringsByIndex ++ [s] }) := by
  unfold stringTable.stringIndex stringTable.lookupStringIndex
  rw [hwf s, (firstIdx?_eq_none_iff s _).mpr h, Option.map_none']

theorem WF_stringIndex (st : stringTable) (hwf : st.WF) (s : String) :
    (st.stringIndex s).2.WF := by
  by_cases hmem : s ∈ st.stringsByIndex
  · cases h : firstIdx? s st.stringsByIndex with
    | none => exact absurd ((firstIdx?_eq_none_iff s _).mp h) (not_not_intro hmem)
    | some n =>
      rw [stringIndex_of_mem st hwf s n h]
      exact hwf
  · rw [stringIndex_of_not_mem st hwf s hmem]
    intro s'
    by_cases hs' : s' = s
    · subst hs'
      have hnone : lookupA st.stringsToIndices s' = none := by
        rw [hwf s', (firstIdx?_eq_none_iff s' _).mpr hmem, Option.map_none']
      rw [lookupA_append_of_none _ _ hnone]
      simp [lookupA, firstIdx?_append_singleton s' _ hmem]
    · cases hl : lookupA st.stringsToIndices s' with
      | none =>
        rw [lookupA_append_of_none _ _ hl]
        have hfi : firstIdx? s' st.stringsByIndex = none := by
          have := hwf s'
          rw [hl] at this
          exact (Option.map_eq_none'.mp this.symm)
        rw [firstIdx?_append_of_none s' _ hfi]
        simp [lookupA, hs', firstIdx?, Ne.symm hs']
      | some v =>
        rw [lookupA_append_of_some _ _ _ hl]
        have := hwf s'
        rw [hl] at this
        rcases Option.map_eq_some'.mp this.symm with ⟨m, hm, hv⟩
        rw [firstIdx?_append_of_some s' _ m hm]
        simp only [Option.map_some', Option.some.injEq]
        omega

theorem internAll_WF : ∀ (ss : List String) (st : stringTable), st.WF →
    (internAll st ss).WF := by
  intro ss
  induction ss with
  | nil => intro st h; exact h
  | cons s rest ih =>
    intro st h
    exact ih _ (WF_stringIndex st h s)

/- dedupGo facts. -/

theorem dedupGo_append_acc : ∀ (ss acc : List String), ∃ t, dedupGo acc ss = acc ++ t := by
  intro ss
  induction ss with
  | nil => intro acc; exact ⟨[], by simp [dedupGo]⟩
  | cons s rest ih =>
    intro acc
    by_cases h : s ∈ acc
    · obtain ⟨t, ht⟩ := ih acc
      exact ⟨t, by simp [dedupGo, h, ht]⟩
    · obtain ⟨t, ht⟩ := ih (acc ++ [s])
      exact ⟨[s] ++ t, by simp [dedupGo, h, ht]⟩

theorem dedupGo_nodup : ∀ (ss acc : List String), acc.Nodup → (dedupGo acc ss).Nodup := by
  intro ss
  induction ss with
  | nil => intro acc h; exact h
  | cons s rest ih =>
    intro acc h
    by_cases hs : s ∈ acc
    · simpa [dedupGo, hs] using ih acc h
    · have hnd : (acc ++ [s]).Nodup := by
        rw [List.nodup_append]
        exact ⟨h, by simp, by intro a ha hb; simp at hb; subst hb; exact hs ha⟩
      simpa [dedupGo, hs] using ih (acc ++ [s]) hnd

theorem mem_dedupGo : ∀ (ss acc : List String) (x : String),
    x ∈ dedupGo acc ss ↔ x ∈ acc ∨ x ∈ ss := by
  intro ss
  induction ss with
  | nil => intro acc x; simp [dedupGo]
  | cons s rest ih =>
    intro acc x
    by_cases hs : s ∈ acc
    · rw [show dedupGo acc (s :: rest) = dedupGo acc rest from by simp [dedupGo, hs]]
      rw [ih acc x]
      constructor
      · rintro (h | h)
        · exact Or.inl h
        · exact Or.inr (List.mem_cons_of_mem _ h)
      · rintro (h | h)
        · exact Or.inl h
        · rcases List.mem_cons.mp h with rfl | h'
          · exact Or.inl hs
          · exact Or.inr h'
    · rw [show dedupGo acc (s :: rest) = dedupGo (acc ++ [s]) rest from by simp [dedupGo, hs]]
      rw [ih (acc ++ [s]) x]
      simp only [List.mem_append, List.mem_singleton, List.mem_cons]
      tauto

theorem dedupGo_append : ∀ (p q acc : List String),
    dedupGo acc (p ++ q) = dedupGo (dedupGo acc p) q := by
  intro p
  induction p with
  | nil => intro q acc; rfl
  | cons s rest ih =>
    intro q acc
    by_cases hs : s ∈ acc
    · simp [dedupGo, hs, ih]
    · simp [dedupGo, hs, ih]

/- The table after interning a batch is the first-seen-order deduplication
of the batch appended to the existing table. -/
theorem internAll_stringsByIndex : ∀ (ss : List String) (st : stringTable), st.WF →
    (internAll st ss).stringsByIndex = dedupGo st.stringsByIndex ss := by
  intro ss
  induction ss with
  | nil => intro st _; rfl
  | cons s rest ih =>
    intro st hwf
    by_cases hmem : s ∈ st.stringsByIndex
    · cases h : firstIdx? s st.stringsByIndex with
      | none => exact absurd ((firstIdx?_eq_none_iff s _).mp h) (not_not_intro hmem)
      | some n =>
        rw [show internAll st (s :: rest) = internAll (st.stringIndex s).2 rest from rfl]
        rw [stringIndex_of_mem st hwf s n h]
        rw [ih st hwf]
        simp [dedupGo, hmem]
    · rw [show internAll st (s :: rest) = internAll (st.stringIndex s).2 rest from rfl]
      rw [stringIndex_of_not_mem st hwf s hmem]
      have hwf' := WF_stringIndex st hwf s
      rw [stringIndex_of_not_mem st hwf s hmem] at hwf'
      rw [ih _ hwf']
      simp [dedupGo, hmem]

theorem internAll_append : ∀ (p q : List String) (st : stringTable),
    internAll st (p ++ q) = internAll (internAll st p) q := by
  intro p
  induction p with
  | nil => intro q st; rfl
  | cons s rest ih =>
    intro q st
    rw [List.cons_append]
    rw [show internAll st (s :: (rest ++ q)) = internAll (st.stringIndex s).2 (rest ++ q) from rfl]
    rw [ih q]
    rfl

/-- C5: interning into one string table from empty: (i) re-interning a
string returns the same index and leaves the table unchanged; (ii) the
table is the first-seen-order deduplication of the interned sequence, with
no duplicates, so distinct strings get the distinct dense indices 0..n-1 in
first-seen order; (iii) a string's index is its position in that
deduplicated table; (iv) the index a string got when first interned is
unchanged by any later interning; (v) interning
["ant","bee","ant","ant","bee"] yields table ["ant","bee"] with ant at 0
and bee at 1. -/
theorem c5_interning :
    (∀ (ss : List String) (s : String),
      ((internAll emptyStringTable ss).stringIndex s).2.stringIndex s =
        (internAll emptyStringTable ss).stringIndex s)
    ∧ (∀ ss : List String,
      (internAll emptyStringTable ss).stringsByIndex = dedupGo [] ss
      ∧ (dedupGo [] ss).Nodup)
    ∧ (∀ (ss : List String) (s : String) (n : Nat),
      firstIdx? s (dedupGo [] ss) = some n →
      ((internAll emptyStringTable ss).stringIndex s).1 = Int.ofNat n)
    ∧ (∀ (p q : List String) (s : String), s ∈ p →
      ((internAll emptyStringTable (p ++ q)).stringIndex s).1 =
        ((internAll emptyStringTable p).stringIndex s).1)
    ∧ ((internAll emptyStringTable ["ant", "bee", "ant", "ant", "bee"]).stringsByIndex
        = ["ant", "bee"]
      ∧ ((internAll emptyStringTable ["ant", "bee", "ant", "ant", "bee"]).stringIndex "ant").1 = 0
      ∧ ((internAll emptyStringTable ["ant", "bee", "ant", "ant", "bee"]).stringIndex "bee").1 = 1) := by
  have hidx : ∀ (ss : List String) (s : String) (n : Nat),
      firstIdx? s (dedupGo [] ss) = some n →
      ((internAll emptyStringTable ss).stringIndex s).1 = Int.ofNat n := by
    intro ss s n h
    have hwf := internAll_WF ss emptyStringTable WF_empty
    have htab := internAll_stringsByIndex ss emptyStringTable WF_empty
    rw [stringIndex_of_mem _ hwf s n (by rw [htab]; exact h)]
  refine ⟨?_, ?_, hidx, ?_, ?_⟩
  · intro ss s
    have hwf := internAll_WF ss emptyStringTable WF_empty
    by_cases hmem : s ∈ (internAll emptyStringTable ss).stringsByIndex
    · cases h : firstIdx? s (internAll emptyStringTable ss).stringsByIndex with
      | none => exact absurd ((firstIdx?_eq_none_iff s _).mp h) (not_not_intro hmem)
      | some n =>
        rw [stringIndex_of_mem _ hwf s n h]
        exact stringIndex_of_mem _ hwf s n h
    · rw [stringIndex_of_not_mem _ hwf s hmem]
      have hwf' := WF_stringIndex _ hwf s
      rw [stringIndex_of_not_mem _ hwf s hmem] at hwf'
      exact stringIndex_of_mem _ hwf' s _ (firstIdx?_append_singleton s _ hmem)
  · intro ss
    exact ⟨internAll_stringsByIndex ss emptyStringTable WF_empty,
      dedupGo_nodup ss [] List.nodup_nil⟩
  · intro p q s hmem
    have hsdp : s ∈ dedupGo [] p := (mem_dedupGo p [] s).mpr (Or.inr hmem)
    cases h : firstIdx? s (dedupGo [] p) with
    | none => exact absurd ((firstIdx?_eq_none_iff s _).mp h) (not_not_intro hsdp)
    | some n =>
      rw [hidx p s n h]
      obtain ⟨t, ht⟩ := dedupGo_append_acc q (dedupGo [] p)
      refine hidx (p ++ q) s n ?_
      rw [dedupGo_append, ht]
      exact firstIdx?_append_of_some s _ n h t
  · refine ⟨by decide, by decide, by decide⟩

/-- C5 witness: the interning law applied to the concrete sequence
["ant","bee","ant","ant","bee"], discharging the position and membership
hypotheses there. -/
theorem c5_witness :
    ((internAll emptyStringTable ["ant", "bee"]).stringIndex "bee").1 = Int.ofNat 1
    ∧ ((internAll emptyStringTable (["ant", "bee"] ++ ["ant"])).stringIndex "ant").1 =
        ((internAll emptyStringTable ["ant", "bee"]).stringIndex "ant").1 :=
  ⟨c5_interning.2.2.1 ["ant", "bee"] "bee" 1 (by decide),
   c5_interning.2.2.2.1 ["ant", "bee"] ["ant"] "ant" (by decide)⟩

/- The key sort used by Datum.MarshalJSON produces an ascending list, and
any two permutations of the same keys sort to the same list (so the emitted
order does not depend on map iteration or insertion order). -/

theorem sortInt64s_sorted (l : List Int) : List.Sorted (· ≤ ·) (sortInt64s l) := by
  have htrans : ∀ a b c : Int, decide (a ≤ b) = true → decide (b ≤ c) = true →
      decide (a ≤ c) = true := by
    intro a b c hab hbc
    simp only [decide_eq_true_eq] at hab hbc ⊢
    omega
  have htotal : ∀ a b : Int, (decide (a ≤ b) || decide (b ≤ a)) = true := by
    intro a b
    simp only [Bool.or_eq_true, decide_eq_true_eq]
    omega
  have h := List.sorted_mergeSort htrans htotal l
  exact h.imp (fun hab => of_decide_eq_true hab)

theorem sortInt64s_canonical {l1 l2 : List Int} (h : l1.Perm l2) :
    sortInt64s l1 = sortInt64s l2 := by
  have hperm : (sortInt64s l1).Perm (sortInt64s l2) :=
    ((List.mergeSort_perm l1 _).trans h).trans (List.mergeSort_perm l2 _).symm
  exact List.eq_of_perm_of_sorted hperm (sortInt64s_sorted l1) (sortInt64s_sorted l2)

/- Two association lists that are permutations of each other with distinct
keys agree on every lookup. -/
theorem lookupA_perm {β : Type} {l1 l2 : List (Int × β)} (hp : l1.Perm l2) :
    (l1.map Prod.fst).Nodup → ∀ k, lookupA l1 k = lookupA l2 k := by
  induction hp with
  | nil => intro _ k; rfl
  | cons x hp ih =>
    intro hnd k
    rcases x with ⟨a, b⟩
    by_cases hk : a = k
    · simp [lookupA, hk]
    · simp only [lookupA, if_neg hk]
      exact ih (List.nodup_cons.mp (by simpa using hnd)).2 k
  | swap x y l =>
    intro hnd k
    rcases x with ⟨a, b⟩
    rcases y with ⟨c, d⟩
    have hnd' : (c :: a :: l.map Prod.fst).Nodup := by simpa using hnd
    have hne : c ≠ a := by
      intro hca
      exact (List.nodup_cons.mp hnd').1 (hca ▸ List.mem_cons_self a (l.map Prod.fst))
    by_cases hc : c = k <;> by_cases ha : a = k
    · exact absurd (hc.trans ha.symm) hne
    · subst hc
      simp [lookupA, ha]
    · subst ha
      simp [lookupA, hc]
    · simp [lookupA, hc, ha]
  | trans hp1 hp2 ih1 ih2 =>
    intro hnd k
    rw [ih1 hnd k, ih2 ((hp1.map Prod.fst).nodup hnd) k]

/-- C10: the wire encoding of a Datum is deterministic: two Datums whose
property maps hold the same key/value pairs (one a permutation of the
other, keys distinct as in a Go map) and whose child lists are equal encode
to identical output, the properties emitted sorted by ascending interned
key independent of insertion order, followed by the children in stored
order. -/
theorem c10_marshal_deterministic (d1 d2 : Datum)
    (hperm : d1.Properties.Perm d2.Properties)
    (hnd : (d1.Properties.map Prod.fst).Nodup)
    (hch : d1.Children = d2.Children) :
    marshalDatum d1 = marshalDatum d2
    ∧ List.Sorted (· ≤ ·) (sortInt64s (d1.Properties.map Prod.fst)) := by
  refine ⟨?_, sortInt64s_sorted _⟩
  have hfun : ∀ k, lookupA d1.Properties k = lookupA d2.Properties k :=
    lookupA_perm hperm hnd
  have hkeys : sortInt64s (d2.Properties.map Prod.fst) =
      sortInt64s (d1.Properties.map Prod.fst) :=
    (sortInt64s_canonical (hperm.map Prod.fst)).symm
  rw [marshalDatum, marshalDatum, hkeys, hch]
  simp only [hfun]

/-- C10 witness: the same two properties inserted in opposite orders encode
to the same output. -/
theorem c10_witness :
    marshalDatum { Properties := [(1, IntegerValue 2), (0, IntegerValue 3)], Children := [] }
      = marshalDatum { Properties := [(0, IntegerValue 3), (1, IntegerValue 2)], Children := [] } :=
  (c10_marshal_deterministic
    { Properties := [(1, IntegerValue 2), (0, IntegerValue 3)], Children := [] }
    { Properties := [(0, IntegerValue 3), (1, IntegerValue 2)], Children := [] }
    (List.Perm.swap (0, IntegerValue 3) (1, IntegerValue 2) [])
    (by decide) rfl).1

end Traceviz
